import Mathlib

set_option maxHeartbeats 1000000

/-!
# Verification of the package-manager CLI core (`src/lib.rs`)

Shallow embedding of the Rust library. Conventions:

* External processes (the python/pip invocations spawned via
  `std::process::Command`) are modelled by an `Env` record of response
  functions: each field answers one kind of invocation with
  `none` (the spawn itself failed, Rust's `Err(io::Error)` on `.output()`)
  or `some (exitOk, text)` (the captured exit status and textual output).
* Functions taking `&mut PackageRegistry` become state-passing functions
  returning the final registry together with `Option PackageError`
  (`none` = the Rust function returned `Ok(())`).
* Strings are handled through their character lists; `trimChars` models
  Rust's `str::trim`, `splitEqEq` models `str::splitn(2, "==")`.
* `rayon`'s `par_iter().map(...).collect::<Vec<_>>()` preserves input
  order, so the parallel fan-out is embedded as `List.map`; the progress
  bar (`indicatif`) only renders output and is not modelled.
-/

/-- Mirrors `PackageError` in lib.rs.  The `std::io::Error` and
`serde_json::Error` payloads are opaque to every property proved here and
are dropped. -/
inductive PackageError where
  | IoError : PackageError
  | PythonNotFound : PackageError
  | InstallationFailed : String → PackageError
  | UninstallationFailed : String → PackageError
  | InvalidPackageSpec : String → PackageError
  | JsonError : PackageError
  | PackageNotFound : String → PackageError
  deriving DecidableEq, Repr

deriving instance DecidableEq for Except

/-- Mirrors `struct Package { name, version }`. -/
structure Package where
  name : String
  version : String
  deriving DecidableEq, Repr

/-- Mirrors `struct PackageRegistry { packages: HashMap<String, Package> }`.
The hash map is modelled as an association list keyed by `Package.name`;
`add_package` keeps keys unique, mirroring `HashMap::insert`. -/
structure PackageRegistry where
  packages : List Package
  deriving DecidableEq, Repr

/-- `PackageRegistry::add_package`: `self.packages.insert(package.name.clone(), package)`.
`HashMap::insert` replaces any entry with the same key. -/
def add_package (reg : PackageRegistry) (p : Package) : PackageRegistry :=
  ⟨p :: reg.packages.filter (fun q => q.name != p.name)⟩

/-- `PackageRegistry::remove_package`: `self.packages.remove(name)`.
(The removed value returned by the Rust method is unused by `delete_package`.) -/
def remove_package (reg : PackageRegistry) (name : String) : PackageRegistry :=
  ⟨reg.packages.filter (fun q => q.name != name)⟩

/-- `PackageRegistry::get_package`: `self.packages.get(name)`. -/
def get_package (reg : PackageRegistry) (name : String) : Option Package :=
  reg.packages.find? (fun q => q.name == name)

/-- Rust `str::trim_start` on the character list (whitespace per
`Char.isWhitespace`, covering the ASCII whitespace relevant here). -/
def trimL (l : List Char) : List Char := l.dropWhile Char.isWhitespace

/-- Rust `str::trim_end` on the character list. -/
def trimR (l : List Char) : List Char := l.rdropWhile Char.isWhitespace

/-- Rust `str::trim` on the character list. -/
def trimChars (l : List Char) : List Char := trimR (trimL l)

/-- One step of `str::splitn(2, "==")`: `some (l, r)` splits the input at the
first occurrence of the two-character separator `==`; `none` means the
separator does not occur (`splitn` then yields the single chunk). -/
def splitEqEq : List Char → Option (List Char × List Char)
  | [] => none
  | c :: rest =>
    if c == '=' && rest.head? == some '=' then some ([], rest.tail)
    else (splitEqEq rest).map (fun p => (c :: p.1, p.2))

/-- `s.contains("==")` as a character-list scan: does `==` occur? -/
def hasSep : List Char → Bool
  | [] => false
  | c :: rest => (c == '=' && rest.head? == some '=') || hasSep rest

/-- `parse_package_spec` (lib.rs:762-800): trim, reject empty, split once on
`==`; with a separator both sides are trimmed and must be non-empty. -/
def parse_package_spec (spec : String) : Except PackageError (String × Option String) :=
  let s := trimChars spec.data
  if s.isEmpty then
    .error (.InvalidPackageSpec "Empty package specification")
  else
    match splitEqEq s with
    | some (l, r) =>
      let name := trimChars l
      let version := trimChars r
      if name.isEmpty || version.isEmpty then
        .error (.InvalidPackageSpec ("Invalid package specification: " ++ String.mk s))
      else
        .ok (String.mk name, some (String.mk version))
    | none =>
      let name := trimChars s
      if name.isEmpty then
        .error (.InvalidPackageSpec "Empty package name")
      else
        .ok (String.mk name, none)

/-- The responses of the external world to the subprocess invocations of
lib.rs.  `none` = spawning the command itself failed (Rust `io::Error`);
`some (exitOk, text)` = the command ran, with its exit status and the
captured text (stderr for installs/uninstalls, stdout lines for `pip show`). -/
structure Env where
  /-- `get_python_executable()`: `some path` when a python is found. -/
  python : Option String
  /-- `pip install <spec>` for one spec (parallel path), keyed by the spec
  argument string. -/
  install : String → Option (Bool × String)
  /-- `pip install <spec...>` for the whole batch (sequential path), keyed by
  the prepared spec list. -/
  installBatch : List String → Option (Bool × String)
  /-- `pip show <name>`: `some (exitOk, stdoutLines)`. -/
  showResult : String → Option (Bool × List String)
  /-- `pip uninstall <name> -y`. -/
  uninstall : String → Option (Bool × String)

/-- `line.starts_with("Version: ")`. -/
def startsWithVersion (l : List Char) : Bool :=
  l.take 9 == "Version: ".data

/-- `get_installed_version` (lib.rs:307-327): on success parse a
`Version: <v>` line from `pip show`'s stdout, defaulting to `"unknown"`;
a non-zero exit also yields `Ok("unknown")`; only a spawn failure is `Err`. -/
def get_installed_version (env : Env) (name : String) : Except PackageError String :=
  match env.showResult name with
  | none => .error .IoError
  | some (ok, lines) =>
    if ok then
      match lines.find? (fun line => startsWithVersion line.data) with
      | some line => .ok (String.mk (trimChars (line.data.drop 9)))
      | none => .ok "unknown"
    else
      .ok "unknown"

/-- `version.map_or(name.clone(), |v| format!("{}=={}", name, v))`. -/
def spec_string (name : String) (version : Option String) : String :=
  match version with
  | some v => name ++ "==" ++ v
  | none => name

/-- `install_single_package` (lib.rs:617-645).  The progress-bar message is
display-only and dropped. -/
def install_single_package (env : Env) (pkg : String) :
    Except PackageError (String × String) :=
  match parse_package_spec pkg with
  | .error e => .error e
  | .ok (name, version) =>
    match env.install (spec_string name version) with
    | none => .error .IoError
    | some (ok, stderr) =>
      if ok then
        .ok (name,
          match version with
          | some v => v
          | none =>
            match get_installed_version env name with
            | .ok v => v
            | .error _ => "unknown")
      else
        .error (.InstallationFailed ("Failed to install " ++ name ++ ": " ++ stderr))

/-- Is this per-item outcome an `Err`? -/
def isErrB (r : Except PackageError (String × String)) : Bool :=
  match r with
  | .error _ => true
  | .ok _ => false

/-- The registry effect of one outcome inside the results loop of
`process_installation_results`: an `Ok` adds the package, an `Err` does not
touch the registry. -/
def apply_outcome (reg : PackageRegistry) (r : Except PackageError (String × String)) :
    PackageRegistry :=
  match r with
  | .ok (n, v) => add_package reg (Package.mk n v)
  | .error _ => reg

/-- `failure_count` accumulated by `process_installation_results`. -/
def countFailures (results : List (Except PackageError (String × String))) : Nat :=
  results.countP isErrB

/-- `process_installation_results` (lib.rs:648-684): add every success to the
registry, count failures, and fail the batch iff `failure_count > 0`, with the
count in the error message.  (The Rust loop mutates the registry behind the
mutex in result order; the fold replays exactly that.) -/
def process_installation_results (results : List (Except PackageError (String × String)))
    (reg : PackageRegistry) : PackageRegistry × Option PackageError :=
  if 0 < countFailures results then
    (results.foldl apply_outcome reg,
      some (.InstallationFailed (toString (countFailures results) ++ " packages failed to install")))
  else
    (results.foldl apply_outcome reg, none)

/-- `install_packages_parallel` (lib.rs:434-466).  `par_iter().map().collect()`
preserves input order, so the per-item results are `packages.map ...`. -/
def install_packages_parallel (env : Env) (packages : List String)
    (reg : PackageRegistry) : PackageRegistry × Option PackageError :=
  if packages.isEmpty then (reg, none)
  else
    match env.python with
    | none => (reg, some .PythonNotFound)
    | some _python =>
      let results := packages.map (fun pkg => install_single_package env pkg)
      process_installation_results results reg

/-- `prepare_package_specs` (lib.rs:687-695): re-form each spec, stopping at
the first parse error (`collect::<Result<Vec<_>>>`). -/
def prepare_package_specs : List String → Except PackageError (List String)
  | [] => .ok []
  | pkg :: rest =>
    match parse_package_spec pkg with
    | .error e => .error e
    | .ok (name, version) =>
      match prepare_package_specs rest with
      | .error e => .error e
      | .ok others => .ok (spec_string name version :: others)

/-- The registry-update loop of `install_packages` (lib.rs:408-418): re-parse
each raw spec, resolve a missing version via `get_installed_version` (the `?`
makes a spawn failure abort mid-loop, keeping earlier additions), and add. -/
def update_registry_loop (env : Env) :
    List String → PackageRegistry → PackageRegistry × Option PackageError
  | [], reg => (reg, none)
  | spec :: rest, reg =>
    match parse_package_spec spec with
    | .error e => (reg, some e)
    | .ok (name, version_option) =>
      match (match version_option with
             | some v => Except.ok v
             | none => get_installed_version env name) with
      | .error e => (reg, some e)
      | .ok version => update_registry_loop env rest (add_package reg (Package.mk name version))

/-- `install_packages` (lib.rs:385-421), the sequential path: one batch
`pip install` command; on non-zero exit the whole call fails with the captured
stderr and the registry is untouched. -/
def install_packages (env : Env) (packages : List String)
    (reg : PackageRegistry) : PackageRegistry × Option PackageError :=
  if packages.isEmpty then (reg, none)
  else
    match env.python with
    | none => (reg, some .PythonNotFound)
    | some _python =>
      match prepare_package_specs packages with
      | .error e => (reg, some e)
      | .ok package_specs =>
        match env.installBatch package_specs with
        | none => (reg, some .IoError)
        | some (ok, stderr) =>
          if ok then update_registry_loop env packages reg
          else (reg, some (.InstallationFailed stderr))

/-- `delete_package` (lib.rs:478-503). -/
def delete_package (env : Env) (name : String)
    (reg : PackageRegistry) : PackageRegistry × Option PackageError :=
  if (trimChars name.data).isEmpty then
    (reg, some (.InvalidPackageSpec "Package name cannot be empty"))
  else
    match env.python with
    | none => (reg, some .PythonNotFound)
    | some _python =>
      match env.uninstall name with
      | none => (reg, some .IoError)
      | some (ok, stderr) =>
        if ok then (remove_package reg name, none)
        else (reg, some (.UninstallationFailed stderr))

/-- `parse_requirements_file` (lib.rs:727-751) on the file's lines: trim each
line, skip blanks and `#` comments, skip (with a warning) lines containing a
space but no `==`, keep the rest in order. -/
def parse_requirements_file : List String → List String
  | [] => []
  | rawLine :: rest =>
    let ld := trimChars rawLine.data
    if ld.isEmpty || ld.head? == some '#' then parse_requirements_file rest
    else if ld.contains ' ' && !(hasSep ld) then parse_requirements_file rest
    else String.mk ld :: parse_requirements_file rest

/-! ## Registry lemmas -/

theorem find?_filter_ne (l : List Package) (pn n : String) (h : pn ≠ n) :
    (l.filter (fun q => q.name != pn)).find? (fun q => q.name == n) =
      l.find? (fun q => q.name == n) := by
  induction l with
  | nil => rfl
  | cons q t ih =>
    simp only [List.filter_cons]
    by_cases hqp : q.name = pn
    · have hcond : (q.name != pn) = false := by simp [hqp]
      rw [hcond]
      simp only [Bool.false_eq_true, if_false]
      rw [ih, List.find?_cons_of_neg _ (by simp [hqp]; exact h)]
    · have hcond : (q.name != pn) = true := by simp [bne_iff_ne]; exact hqp
      rw [hcond]
      simp only [if_true]
      by_cases hq : q.name = n
      · rw [List.find?_cons_of_pos _ (by simp [hq]), List.find?_cons_of_pos _ (by simp [hq])]
      · rw [List.find?_cons_of_neg _ (by simp [hq]), List.find?_cons_of_neg _ (by simp [hq]), ih]

theorem find?_filter_self (l : List Package) (n : String) :
    (l.filter (fun q => q.name != n)).find? (fun q => q.name == n) = none := by
  rw [List.find?_eq_none]
  intro q hq
  have := List.of_mem_filter hq
  simp only [bne_iff_ne, ne_eq, decide_eq_true_eq] at this
  simp [this]

theorem get_add_package (reg : PackageRegistry) (p : Package) (n : String) :
    get_package (add_package reg p) n =
      if p.name = n then some p else get_package reg n := by
  unfold get_package add_package
  by_cases h : p.name = n
  · rw [List.find?_cons_of_pos _ (by simp [h]), if_pos h]
  · rw [List.find?_cons_of_neg _ (by simp [h]), if_neg h]
    exact find?_filter_ne _ _ _ h

theorem get_remove_package (reg : PackageRegistry) (name n : String) :
    get_package (remove_package reg name) n =
      if name = n then none else get_package reg n := by
  unfold get_package remove_package
  by_cases h : name = n
  · subst h
    simp [find?_filter_self]
  · simp only [if_neg h]
    exact find?_filter_ne _ _ _ h

/-! ## The results-processing fold -/

/-- The version recorded by the *last* `Ok` outcome for a given name, if any
(later registry insertions overwrite earlier ones). -/
def lastSuccessVersion : List (Except PackageError (String × String)) → String → Option String
  | [], _ => none
  | r :: rest, n =>
    match lastSuccessVersion rest n with
    | some v => some v
    | none =>
      match r with
      | .ok (m, v) => if m = n then some v else none
      | .error _ => none

theorem get_foldl_apply (results : List (Except PackageError (String × String)))
    (reg : PackageRegistry) (n : String) :
    get_package (results.foldl apply_outcome reg) n =
      match lastSuccessVersion results n with
      | some v => some (Package.mk n v)
      | none => get_package reg n := by
  induction results generalizing reg with
  | nil => rfl
  | cons r rest ih =>
    rw [List.foldl_cons, ih]
    cases hrest : lastSuccessVersion rest n with
    | some v => simp [lastSuccessVersion, hrest]
    | none =>
      simp only [lastSuccessVersion, hrest]
      cases r with
      | error e => rfl
      | ok nv =>
        obtain ⟨m, v⟩ := nv
        by_cases hm : m = n
        · subst hm
          simp [apply_outcome, get_add_package]
        · simp [apply_outcome, get_add_package, hm]

theorem foldl_apply_all_err (results : List (Except PackageError (String × String)))
    (reg : PackageRegistry) (h : ∀ r ∈ results, isErrB r = true) :
    results.foldl apply_outcome reg = reg := by
  induction results generalizing reg with
  | nil => rfl
  | cons r rest ih =>
    have hr := h r (by simp)
    cases r with
    | error e =>
      rw [List.foldl_cons]
      exact ih reg (fun x hx => h x (by simp [hx]))
    | ok nv => simp [isErrB] at hr

theorem process_results_fst (results : List (Except PackageError (String × String)))
    (reg : PackageRegistry) :
    (process_installation_results results reg).1 = results.foldl apply_outcome reg := by
  unfold process_installation_results
  split <;> rfl

theorem install_packages_parallel_eq (env : Env) (packages : List String)
    (reg : PackageRegistry) (py : String) (hpy : env.python = some py)
    (hne : packages ≠ []) :
    install_packages_parallel env packages reg =
      process_installation_results
        (packages.map (fun pkg => install_single_package env pkg)) reg := by
  cases packages with
  | nil => exact absurd rfl hne
  | cons a l => simp [install_packages_parallel, hpy]

theorem install_packages_parallel_fst (env : Env) (packages : List String)
    (reg : PackageRegistry) (py : String) (hpy : env.python = some py) :
    (install_packages_parallel env packages reg).1 =
      (packages.map (fun pkg => install_single_package env pkg)).foldl apply_outcome reg := by
  cases packages with
  | nil => rfl
  | cons a l =>
    rw [install_packages_parallel_eq env _ reg py hpy (by simp), process_results_fst]

/-! ## Claim theorems -/

/-- C1: after any parallel batch, the registry holds exactly its pre-batch
entries plus one entry per successful per-item outcome, keyed by that
outcome's package name (later successes overwrite same-named earlier ones);
no entry is removed, and a batch whose outcomes are all failures leaves the
registry untouched. -/
theorem parallel_batch_registry_invariant (env : Env) (packages : List String)
    (reg : PackageRegistry) (hpy : ∃ py, env.python = some py) :
    (∀ n, get_package (install_packages_parallel env packages reg).1 n =
      match lastSuccessVersion (packages.map (fun pkg => install_single_package env pkg)) n with
      | some v => some (Package.mk n v)
      | none => get_package reg n) ∧
    (∀ n p, get_package reg n = some p →
      ∃ q, get_package (install_packages_parallel env packages reg).1 n = some q) ∧
    ((∀ r ∈ packages.map (fun pkg => install_single_package env pkg), isErrB r = true) →
      (install_packages_parallel env packages reg).1 = reg) := by
  obtain ⟨py, hpy⟩ := hpy
  have key := install_packages_parallel_fst env packages reg py hpy
  refine ⟨?_, ?_, ?_⟩
  · intro n
    rw [key, get_foldl_apply]
  · intro n p hnp
    rw [key, get_foldl_apply]
    cases lastSuccessVersion (packages.map (fun pkg => install_single_package env pkg)) n with
    | some v => exact ⟨_, rfl⟩
    | none => exact ⟨p, hnp⟩
  · intro hall
    rw [key, foldl_apply_all_err _ _ hall]

def envAllErr : Env where
  python := some "py"
  install := fun _ => some (false, "boom")
  installBatch := fun _ => some (true, "")
  showResult := fun _ => none
  uninstall := fun _ => some (true, "")

theorem parallel_batch_registry_invariant_witness :
    (install_packages_parallel envAllErr ["a", "b"] ⟨[Package.mk "k" "1"]⟩).1 =
      ⟨[Package.mk "k" "1"]⟩ :=
  (parallel_batch_registry_invariant envAllErr ["a", "b"] ⟨[Package.mk "k" "1"]⟩
    ⟨"py", rfl⟩).2.2 (by decide)

/-- C2: for a non-empty batch in parallel mode (with a python found), the call
errs iff at least one per-item outcome failed, the error being
`InstallationFailed` carrying the failure count; one spec's failure never
aborts its siblings — there is one outcome per input spec and every successful
outcome is committed to the registry. -/
theorem parallel_error_iff_failures (env : Env) (packages : List String)
    (reg : PackageRegistry) (py : String) (hpy : env.python = some py)
    (hne : packages ≠ []) :
    ((install_packages_parallel env packages reg).2 =
      if countFailures (packages.map (fun pkg => install_single_package env pkg)) = 0 then none
      else some (.InstallationFailed
        (toString (countFailures (packages.map (fun pkg => install_single_package env pkg))) ++
          " packages failed to install"))) ∧
    (packages.map (fun pkg => install_single_package env pkg)).length = packages.length ∧
    (∀ n v, lastSuccessVersion (packages.map (fun pkg => install_single_package env pkg)) n =
        some v →
      get_package (install_packages_parallel env packages reg).1 n = some (Package.mk n v)) := by
  refine ⟨?_, List.length_map _ _, ?_⟩
  · rw [install_packages_parallel_eq env packages reg py hpy hne]
    unfold process_installation_results
    by_cases hc : countFailures (packages.map (fun pkg => install_single_package env pkg)) = 0
    · simp [hc]
    · have hpos : 0 < countFailures (packages.map (fun pkg => install_single_package env pkg)) :=
        Nat.pos_of_ne_zero hc
      simp [hc, hpos]
  · intro n v hv
    rw [install_packages_parallel_fst env packages reg py hpy, get_foldl_apply, hv]

def envOneFail : Env where
  python := some "py"
  install := fun s => if s == "a" then some (true, "") else some (false, "x")
  installBatch := fun _ => some (true, "")
  showResult := fun _ => some (true, ["Version: 1.0"])
  uninstall := fun _ => some (true, "")

theorem parallel_error_iff_failures_witness :
    (install_packages_parallel envOneFail ["a", "b"] ⟨[]⟩).2 =
      some (.InstallationFailed "1 packages failed to install") :=
  ((parallel_error_iff_failures envOneFail ["a", "b"] ⟨[]⟩ "py" rfl (by decide)).1).trans
    (by decide)

/-- C7: an empty spec list makes both install paths return success at once,
with the registry untouched, for every environment (so no installer command
and no progress reporting is ever invoked). -/
theorem empty_batch_noop (env : Env) (reg : PackageRegistry) :
    install_packages env [] reg = (reg, none) ∧
      install_packages_parallel env [] reg = (reg, none) :=
  ⟨rfl, rfl⟩

/-- C8: `delete_package` removes the keyed entry only after the uninstall
command reports success: a non-zero exit yields `UninstallationFailed` with
the registry unchanged; a zero exit removes exactly the entry for that name
(other keys unaffected). -/
theorem delete_package_spec (env : Env) (name : String) (reg : PackageRegistry)
    (py : String) (hpy : env.python = some py) (hname : trimChars name.data ≠ []) :
    (∀ err, env.uninstall name = some (false, err) →
      delete_package env name reg = (reg, some (.UninstallationFailed err))) ∧
    (∀ out, env.uninstall name = some (true, out) →
      delete_package env name reg = (remove_package reg name, none)) ∧
    (get_package (remove_package reg name) name = none) ∧
    (∀ m, m ≠ name → get_package (remove_package reg name) m = get_package reg m) := by
  refine ⟨?_, ?_, ?_, ?_⟩
  · intro err h
    simp [delete_package, List.isEmpty_iff, hname, hpy, h]
  · intro out h
    simp [delete_package, List.isEmpty_iff, hname, hpy, h]
  · rw [get_remove_package, if_pos rfl]
  · intro m hm
    rw [get_remove_package, if_neg (fun hc => hm hc.symm)]

def envDel : Env where
  python := some "py"
  install := fun _ => some (true, "")
  installBatch := fun _ => some (true, "")
  showResult := fun _ => some (true, [])
  uninstall := fun _ => some (true, "")

theorem delete_package_spec_witness :
    delete_package envDel "pkg" ⟨[Package.mk "pkg" "1", Package.mk "other" "2"]⟩ =
      (⟨[Package.mk "other" "2"]⟩, none) :=
  ((delete_package_spec envDel "pkg" ⟨[Package.mk "pkg" "1", Package.mk "other" "2"]⟩
    "py" rfl (by decide)).2.1 "" rfl).trans (by decide)

/-! ## Trimming and splitting toolkit -/

theorem trimL_idem (l : List Char) : trimL (trimL l) = trimL l :=
  List.dropWhile_idempotent _ _

theorem trimR_idem (l : List Char) : trimR (trimR l) = trimR l :=
  List.rdropWhile_idempotent _ _

theorem trimR_cons (c : Char) (x : List Char) :
    trimR (c :: x) =
      if trimR x = [] then (if Char.isWhitespace c then [] else [c]) else c :: trimR x := by
  have hc : trimR (c :: x) =
      ((x.reverse ++ [c]).dropWhile Char.isWhitespace).reverse := by
    unfold trimR List.rdropWhile
    rw [List.reverse_cons]
  rw [hc, List.dropWhile_append]
  cases hd : x.reverse.dropWhile Char.isWhitespace with
  | nil =>
    have h0 : trimR x = [] := by unfold trimR List.rdropWhile; rw [hd]; rfl
    rw [if_pos h0]
    simp only [hd, List.isEmpty_nil, if_true]
    by_cases hcw : Char.isWhitespace c
    · simp [List.dropWhile_cons, hcw]
    · simp [List.dropWhile_cons, hcw]
  | cons e es =>
    have h0 : trimR x = (e :: es).reverse := by unfold trimR List.rdropWhile; rw [hd]
    have hne : trimR x ≠ [] := by simp [h0]
    rw [if_neg hne]
    simp only [hd, List.isEmpty_cons, Bool.false_eq_true, if_false]
    rw [List.reverse_append, h0]
    rfl

theorem trimL_trimR_comm (l : List Char) : trimL (trimR l) = trimR (trimL l) := by
  induction l with
  | nil => rfl
  | cons c x ih =>
    by_cases hcw : Char.isWhitespace c
    · have hL : trimL (c :: x) = trimL x := by simp [trimL, List.dropWhile_cons, hcw]
      by_cases h0 : trimR x = []
      · rw [trimR_cons, if_pos h0, if_pos hcw, hL, ← ih, h0]
      · rw [trimR_cons, if_neg h0]
        have hstep : trimL (c :: trimR x) = trimL (trimR x) := by
          simp [trimL, List.dropWhile_cons, hcw]
        rw [hstep, hL, ih]
    · have hL : trimL (c :: x) = c :: x := by simp [trimL, List.dropWhile_cons, hcw]
      by_cases h0 : trimR x = []
      · rw [trimR_cons, if_pos h0, if_neg hcw, hL, trimR_cons, if_pos h0, if_neg hcw]
        simp [trimL, List.dropWhile_cons, hcw]
      · rw [trimR_cons, if_neg h0, hL, trimR_cons, if_neg h0]
        simp [trimL, List.dropWhile_cons, hcw]

theorem trimL_trimChars (l : List Char) : trimL (trimChars l) = trimChars l := by
  unfold trimChars
  rw [trimL_trimR_comm, trimL_idem]

theorem trimR_trimChars (l : List Char) : trimR (trimChars l) = trimChars l := by
  unfold trimChars
  rw [trimR_idem]

theorem trimChars_idem (l : List Char) : trimChars (trimChars l) = trimChars l := by
  show trimR (trimL (trimChars l)) = trimChars l
  rw [trimL_trimChars, trimR_trimChars]

theorem hasSep_append_right (x y : List Char) (h : hasSep y = true) :
    hasSep (x ++ y) = true := by
  induction x with
  | nil => simpa
  | cons c t ih => simp [hasSep, ih]

theorem hasSep_append_left (x y : List Char) (h : hasSep x = true) :
    hasSep (x ++ y) = true := by
  induction x with
  | nil => simp [hasSep] at h
  | cons c t ih =>
    simp only [hasSep, Bool.or_eq_true] at h
    rcases h with h | h
    · have h12 : (c == '=') = true ∧ (t.head? == some '=') = true := by simpa using h
      obtain ⟨h1, h2⟩ := h12
      cases t with
      | nil => simp at h2
      | cons d t' =>
        simp only [List.head?_cons] at h2
        simp [hasSep, h1, h2]
    · simp [hasSep, ih h]

theorem hasSep_middle (u v w : List Char) (h : hasSep v = true) :
    hasSep (u ++ v ++ w) = true := by
  rw [List.append_assoc]
  exact hasSep_append_right u _ (hasSep_append_left v w h)

theorem hasSep_suffix_false (u v : List Char) (h : hasSep (u ++ v) = false) :
    hasSep v = false := by
  cases hv : hasSep v with
  | false => rfl
  | true => rw [hasSep_append_right u v hv] at h; cases h

theorem hasSep_front_false (u v : List Char) (h : hasSep (u ++ v) = false) :
    hasSep u = false := by
  cases hu : hasSep u with
  | false => rfl
  | true => rw [hasSep_append_left u v hu] at h; cases h

theorem hasSep_snoc_false (x : List Char) (h1 : hasSep x = false)
    (h2 : x.getLast? ≠ some '=') : hasSep (x ++ ['=']) = false := by
  induction x with
  | nil => decide
  | cons c t ih =>
    have h1' : (c == '=' && t.head? == some '=') = false ∧ hasSep t = false := by
      simpa [hasSep, Bool.or_eq_false_iff] using h1
    obtain ⟨hclause, htail⟩ := h1'
    cases t with
    | nil =>
      have hc : (c == '=') = false := by
        rw [beq_eq_false_iff_ne]
        intro hceq
        exact h2 (by simp [hceq])
      show hasSep [c, '='] = false
      have hr : hasSep [c, '='] = ((c == '=' && some '=' == some '=') || hasSep ['=']) := rfl
      rw [hr, hc]
      decide
    | cons d t' =>
      have hlast : (d :: t').getLast? ≠ some '=' := by
        rw [← List.getLast?_cons_cons (a := c)]
        exact h2
      have htailsep : hasSep ((d :: t') ++ ['=']) = false := ih htail hlast
      show hasSep (c :: ((d :: t') ++ ['='])) = false
      have hr : hasSep (c :: ((d :: t') ++ ['='])) =
          ((c == '=' && ((d :: t') ++ ['=']).head? == some '=') || hasSep ((d :: t') ++ ['='])) :=
        rfl
      rw [hr, htailsep]
      have hclause' : (c == '=' && ((d :: t') ++ ['=']).head? == some '=') = false := by
        have : ((d :: t') ++ ['=']).head? = some d := by simp
        rw [this]
        simpa using hclause
      rw [hclause']
      rfl

theorem splitEqEq_eq_none_iff (l : List Char) :
    splitEqEq l = none ↔ hasSep l = false := by
  induction l with
  | nil => simp [splitEqEq, hasSep]
  | cons c t ih =>
    by_cases hb : (c == '=' && t.head? == some '=') = true
    · simp [splitEqEq, hasSep, hb]
    · rw [splitEqEq, if_neg hb]
      have hbf : (c == '=' && t.head? == some '=') = false := by
        exact Bool.not_eq_true _ |>.mp hb
      simp [hasSep, hbf, Option.map_eq_none', ih]

theorem splitEqEq_append (x y : List Char) (h : hasSep (x ++ ['=']) = false) :
    splitEqEq (x ++ '=' :: '=' :: y) = some (x, y) := by
  induction x with
  | nil => simp [splitEqEq]
  | cons c t ih =>
    rw [List.cons_append] at h
    have h' : (c == '=' && (t ++ ['=']).head? == some '=') = false ∧
        hasSep (t ++ ['=']) = false := by
      have := h
      simp only [hasSep, Bool.or_eq_false_iff] at this
      exact this
    obtain ⟨h1, h2⟩ := h'
    have hcond : (c == '=' && (t ++ '=' :: '=' :: y).head? == some '=') = false := by
      cases t with
      | nil => simpa using h1
      | cons d t' => simpa using h1
    show splitEqEq (c :: (t ++ '=' :: '=' :: y)) = some (c :: t, y)
    have hr : splitEqEq (c :: (t ++ '=' :: '=' :: y)) =
        (if (c == '=' && (t ++ '=' :: '=' :: y).head? == some '=') = true then
          some ([], (t ++ '=' :: '=' :: y).tail)
        else (splitEqEq (t ++ '=' :: '=' :: y)).map (fun p => (c :: p.1, p.2))) := rfl
    rw [hr, hcond, if_neg (by simp), ih h2, Option.map_some']

theorem splitEqEq_some (l : List Char) :
    ∀ a b, splitEqEq l = some (a, b) →
      l = a ++ '=' :: '=' :: b ∧ hasSep (a ++ ['=']) = false := by
  induction l with
  | nil => intro a b h; simp [splitEqEq] at h
  | cons c t ih =>
    intro a b h
    by_cases hb : (c == '=' && t.head? == some '=') = true
    · rw [splitEqEq, if_pos hb] at h
      have h12 : (c == '=') = true ∧ (t.head? == some '=') = true := by simpa using hb
      obtain ⟨h1, h2⟩ := h12
      have hc : c = '=' := by simpa using h1
      cases t with
      | nil => simp at h2
      | cons e t' =>
        have he : e = '=' := by simpa using h2
        have hpair : (([] : List Char), (e :: t').tail) = (a, b) := Option.some.inj h
        have ha : a = [] := (congrArg Prod.fst hpair).symm
        have hbb : b = t' := (congrArg Prod.snd hpair).symm
        subst ha hbb hc he
        exact ⟨rfl, by decide⟩
    · rw [splitEqEq, if_neg hb] at h
      cases hs : splitEqEq t with
      | none => rw [hs] at h; simp at h
      | some p =>
        obtain ⟨p1, p2⟩ := p
        rw [hs, Option.map_some'] at h
        have hpair : (c :: p1, p2) = (a, b) := Option.some.inj h
        have ha : a = c :: p1 := (congrArg Prod.fst hpair).symm
        have hbb : b = p2 := (congrArg Prod.snd hpair).symm
        subst ha hbb
        obtain ⟨hdecomp, hsep⟩ := ih p1 b hs
        refine ⟨by rw [hdecomp]; rfl, ?_⟩
        have hbf : (c == '=' && t.head? == some '=') = false :=
          Bool.not_eq_true _ |>.mp hb
        have hhead : (c == '=' && (p1 ++ ['=']).head? == some '=') = false := by
          rw [hdecomp] at hbf
          cases p1 with
          | nil => simpa using hbf
          | cons e p1' => simpa using hbf
        rw [List.cons_append]
        have hr : hasSep (c :: (p1 ++ ['='])) =
            ((c == '=' && (p1 ++ ['=']).head? == some '=') || hasSep (p1 ++ ['='])) := rfl
        rw [hr, hhead, hsep]
        rfl

theorem dropWhile_ws_append_sep (a b : List Char) :
    (a ++ '=' :: '=' :: b).dropWhile Char.isWhitespace =
      a.dropWhile Char.isWhitespace ++ '=' :: '=' :: b := by
  induction a with
  | nil =>
    have h : Char.isWhitespace '=' = false := by decide
    simp [List.dropWhile_cons, h]
  | cons c t ih =>
    by_cases hc : Char.isWhitespace c
    · simp [List.dropWhile_cons, hc, ih]
    · simp [List.dropWhile_cons, hc]

theorem reverse_around_sep (u w : List Char) :
    (u ++ '=' :: '=' :: w).reverse = w.reverse ++ '=' :: '=' :: u.reverse := by
  have h : (u ++ '=' :: '=' :: w) = u ++ ['=', '='] ++ w := by simp
  rw [h, List.reverse_append, List.reverse_append]
  simp

theorem trimR_append_sep (x y : List Char) :
    trimR (x ++ '=' :: '=' :: y) = x ++ '=' :: '=' :: trimR y := by
  show (List.rdropWhile Char.isWhitespace (x ++ '=' :: '=' :: y)) = _
  unfold List.rdropWhile
  rw [reverse_around_sep, dropWhile_ws_append_sep, reverse_around_sep, List.reverse_reverse]
  rfl

theorem trimChars_append_sep (a b : List Char) :
    trimChars (a ++ '=' :: '=' :: b) = trimL a ++ '=' :: '=' :: trimR b := by
  unfold trimChars
  have h1 : trimL (a ++ '=' :: '=' :: b) = trimL a ++ '=' :: '=' :: b :=
    dropWhile_ws_append_sep a b
  rw [h1, trimR_append_sep]

theorem trim_decomp (l : List Char) : ∃ u w, l = u ++ trimChars l ++ w := by
  refine ⟨l.takeWhile Char.isWhitespace,
    ((trimL l).reverse.takeWhile Char.isWhitespace).reverse, ?_⟩
  conv_lhs => rw [← List.takeWhile_append_dropWhile (p := Char.isWhitespace) (l := l)]
  rw [List.append_assoc]
  congr 1
  show trimL l = trimChars l ++ ((trimL l).reverse.takeWhile Char.isWhitespace).reverse
  calc trimL l = (trimL l).reverse.reverse := (List.reverse_reverse _).symm
    _ = ((trimL l).reverse.takeWhile Char.isWhitespace ++
          (trimL l).reverse.dropWhile Char.isWhitespace).reverse := by
        rw [List.takeWhile_append_dropWhile]
    _ = ((trimL l).reverse.dropWhile Char.isWhitespace).reverse ++
          ((trimL l).reverse.takeWhile Char.isWhitespace).reverse := by
        rw [List.reverse_append]
    _ = trimChars l ++ ((trimL l).reverse.takeWhile Char.isWhitespace).reverse := rfl

theorem hasSep_trimChars_false (l : List Char) (h : hasSep l = false) :
    hasSep (trimChars l) = false := by
  obtain ⟨u, w, hl⟩ := trim_decomp l
  cases hst : hasSep (trimChars l) with
  | false => rfl
  | true =>
    exfalso
    have := hasSep_middle u (trimChars l) w hst
    rw [← hl] at this
    rw [this] at h
    cases h

/-! ## Behaviour of `parse_package_spec` -/

theorem parse_trim_first (t : String) :
    parse_package_spec t = parse_package_spec (String.mk (trimChars t.data)) := by
  unfold parse_package_spec
  rw [show (String.mk (trimChars t.data)).data = trimChars t.data from rfl, trimChars_idem]

theorem parse_empty_input (t : String) (h : trimChars t.data = []) :
    parse_package_spec t = .error (.InvalidPackageSpec "Empty package specification") := by
  simp [parse_package_spec, h]

theorem parse_no_sep (t : String) (hne : trimChars t.data ≠ [])
    (hsep : hasSep (trimChars t.data) = false) :
    parse_package_spec t = .ok (String.mk (trimChars t.data), none) := by
  have hsplit : splitEqEq (trimChars t.data) = none := (splitEqEq_eq_none_iff _).mpr hsep
  have hidem : trimChars (trimChars t.data) = trimChars t.data := trimChars_idem _
  have hempty : (trimChars t.data).isEmpty = false := by
    simp [List.isEmpty_iff, hne]
  simp [parse_package_spec, hsplit, hidem, hempty]

theorem parse_with_sep (a b : List Char) (h : hasSep (a ++ ['=']) = false) :
    parse_package_spec (String.mk (a ++ '=' :: '=' :: b)) =
      (if trimChars a = [] ∨ trimChars b = [] then
        .error (.InvalidPackageSpec
          ("Invalid package specification: " ++ String.mk (trimChars (a ++ '=' :: '=' :: b))))
      else .ok (String.mk (trimChars a), some (String.mk (trimChars b)))) := by
  have htrim : trimChars (a ++ '=' :: '=' :: b) = trimL a ++ '=' :: '=' :: trimR b :=
    trimChars_append_sep a b
  have hsepa : hasSep (trimL a ++ ['=']) = false := by
    have hdec : a ++ ['='] = a.takeWhile Char.isWhitespace ++ (trimL a ++ ['=']) := by
      rw [← List.append_assoc]
      show a ++ ['='] =
        (a.takeWhile Char.isWhitespace ++ a.dropWhile Char.isWhitespace) ++ ['=']
      rw [List.takeWhile_append_dropWhile]
    exact hasSep_suffix_false _ _ (by rw [← hdec]; exact h)
  have hsplit : splitEqEq (trimL a ++ '=' :: '=' :: trimR b) = some (trimL a, trimR b) :=
    splitEqEq_append _ _ hsepa
  have hname : trimChars (trimL a) = trimChars a := by
    unfold trimChars
    rw [trimL_idem]
  have hver : trimChars (trimR b) = trimChars b := by
    show trimR (trimL (trimR b)) = trimChars b
    rw [trimL_trimR_comm, trimR_idem]
    rfl
  have hfull : (trimL a ++ '=' :: '=' :: trimR b).isEmpty = false := by
    cases trimL a <;> rfl
  have hdata : trimChars (String.mk (a ++ '=' :: '=' :: b)).data =
      trimL a ++ '=' :: '=' :: trimR b := htrim
  simp only [parse_package_spec, hdata, hfull, Bool.false_eq_true, if_false, hsplit, hname,
    hver, htrim]
  by_cases h1 : trimChars a = []
  · simp [List.isEmpty_iff, h1]
  · by_cases h2 : trimChars b = []
    · simp [List.isEmpty_iff, h1, h2]
    · simp [List.isEmpty_iff, h1, h2]

/-- C4: `parse_package_spec` first trims its input; empty trimmed input is an
`InvalidPackageSpec` error; with no `==` separator the whole trimmed string is
the name and the version is absent; with a separator the input splits at its
first occurrence, both sides trimmed and required non-empty; and the spec's
worked examples hold. -/
theorem parse_package_spec_characterization :
    (∀ t : String, parse_package_spec t = parse_package_spec (String.mk (trimChars t.data))) ∧
    (∀ t : String, trimChars t.data = [] →
      parse_package_spec t = .error (.InvalidPackageSpec "Empty package specification")) ∧
    (∀ t : String, trimChars t.data ≠ [] → hasSep (trimChars t.data) = false →
      parse_package_spec t = .ok (String.mk (trimChars t.data), none)) ∧
    (∀ a b : List Char, hasSep (a ++ ['=']) = false →
      parse_package_spec (String.mk (a ++ '=' :: '=' :: b)) =
        (if trimChars a = [] ∨ trimChars b = [] then
          .error (.InvalidPackageSpec
            ("Invalid package specification: " ++ String.mk (trimChars (a ++ '=' :: '=' :: b))))
        else .ok (String.mk (trimChars a), some (String.mk (trimChars b))))) ∧
    parse_package_spec "numpy==1.21.0" = .ok ("numpy", some "1.21.0") ∧
    parse_package_spec "requests" = .ok ("requests", none) ∧
    parse_package_spec "" = .error (.InvalidPackageSpec "Empty package specification") ∧
    parse_package_spec "==1.0.0" =
      .error (.InvalidPackageSpec "Invalid package specification: ==1.0.0") ∧
    parse_package_spec "package==" =
      .error (.InvalidPackageSpec "Invalid package specification: package==") :=
  ⟨parse_trim_first, parse_empty_input, parse_no_sep, parse_with_sep,
    by decide, by decide, by decide, by decide, by decide⟩

theorem parse_package_spec_characterization_witness :
    parse_package_spec "  " = .error (.InvalidPackageSpec "Empty package specification") ∧
    parse_package_spec " requests " = .ok ("requests", none) ∧
    parse_package_spec " numpy == 1.21.0 " = .ok ("numpy", some "1.21.0") := by
  refine ⟨?_, ?_, ?_⟩
  · exact parse_package_spec_characterization.2.1 "  " (by decide)
  · exact (parse_package_spec_characterization.2.2.1 " requests " (by decide) (by decide)).trans
      (by decide)
  · have hstr : " numpy == 1.21.0 " =
        String.mk (" numpy ".data ++ '=' :: '=' :: " 1.21.0 ".data) := by decide
    have h := parse_package_spec_characterization.2.2.2.1 (" numpy ".data) (" 1.21.0 ".data)
      (by decide)
    exact (congrArg parse_package_spec hstr).trans (h.trans (by decide))

theorem parse_ok_inversion (t name : String) (vopt : Option String)
    (h : parse_package_spec t = .ok (name, vopt)) :
    (trimChars t.data ≠ [] ∧ splitEqEq (trimChars t.data) = none ∧
      name = String.mk (trimChars t.data) ∧ vopt = none) ∨
    (∃ l r, trimChars t.data ≠ [] ∧ splitEqEq (trimChars t.data) = some (l, r) ∧
      trimChars l ≠ [] ∧ trimChars r ≠ [] ∧
      name = String.mk (trimChars l) ∧ vopt = some (String.mk (trimChars r))) := by
  by_cases hemp : trimChars t.data = []
  · rw [parse_empty_input t hemp] at h
    simp at h
  · cases hsplit : splitEqEq (trimChars t.data) with
    | none =>
      left
      have hsep : hasSep (trimChars t.data) = false := (splitEqEq_eq_none_iff _).mp hsplit
      rw [parse_no_sep t hemp hsep] at h
      have hinj := Except.ok.inj h
      exact ⟨hemp, rfl, (congrArg Prod.fst hinj).symm, (congrArg Prod.snd hinj).symm⟩
    | some p =>
      obtain ⟨l, r⟩ := p
      right
      have hd := splitEqEq_some _ l r hsplit
      have hp : parse_package_spec t = parse_package_spec (String.mk (l ++ '=' :: '=' :: r)) := by
        rw [parse_trim_first t, hd.1]
      rw [hp, parse_with_sep l r hd.2] at h
      by_cases h1 : trimChars l = [] ∨ trimChars r = []
      · rw [if_pos h1] at h
        simp at h
      · rw [if_neg h1] at h
        push_neg at h1
        have hinj := Except.ok.inj h
        exact ⟨l, r, hemp, rfl, h1.1, h1.2,
          (congrArg Prod.fst hinj).symm, (congrArg Prod.snd hinj).symm⟩

/-- C10 counterexample: the round-trip fails when the parsed name ends in
`'='`.  `"a= ==1"` parses to `("a=", "1")`, but re-forming gives `"a===1"`,
which re-parses to `("a", "=1")`. -/
theorem parse_roundtrip_cex :
    parse_package_spec "a= ==1" = .ok ("a=", some "1") ∧
    spec_string "a=" (some "1") = "a===1" ∧
    parse_package_spec (spec_string "a=" (some "1")) = .ok ("a", some "=1") :=
  ⟨by decide, by decide, by decide⟩

/-- C10 (amended): parsing round-trips with the spec re-forming of
`prepare_package_specs` / `install_single_package` for every parse result
whose name does not end in `'='` (version absent, or last name character not
`'='`); a name ending in `'='` shifts the first `==` occurrence on re-parse. -/
theorem parse_roundtrip_amended (t name : String) (vopt : Option String)
    (hp : parse_package_spec t = .ok (name, vopt))
    (hlast : vopt = none ∨ name.data.getLast? ≠ some '=') :
    parse_package_spec (spec_string name vopt) = .ok (name, vopt) := by
  rcases parse_ok_inversion t name vopt hp with
    ⟨hne, hsplit, hname, hv⟩ | ⟨l, r, hne, hsplit, hl, hr, hname, hv⟩
  · subst hname hv
    have hdat : (String.mk (trimChars t.data)).data = trimChars t.data := rfl
    have hidem : trimChars (trimChars t.data) = trimChars t.data := trimChars_idem _
    have hres := parse_no_sep (String.mk (trimChars t.data))
      (by rw [hdat, hidem]; exact hne)
      (by rw [hdat, hidem]; exact (splitEqEq_eq_none_iff _).mp hsplit)
    rw [hdat, hidem] at hres
    exact hres
  · subst hname hv
    have hlast' : (trimChars l).getLast? ≠ some '=' := by
      rcases hlast with h | h
      · cases h
      · exact h
    have hd := splitEqEq_some _ l r hsplit
    have hsl : hasSep l = false := hasSep_front_false _ _ hd.2
    have hstriml : hasSep (trimChars l) = false := hasSep_trimChars_false l hsl
    have hsnoc : hasSep (trimChars l ++ ['=']) = false :=
      hasSep_snoc_false _ hstriml hlast'
    have hdata : (spec_string (String.mk (trimChars l)) (some (String.mk (trimChars r)))).data
        = trimChars l ++ '=' :: '=' :: trimChars r := by
      show (String.mk (trimChars l) ++ "==" ++ String.mk (trimChars r)).data = _
      rw [String.data_append, String.data_append, List.append_assoc]
      rfl
    have hX : spec_string (String.mk (trimChars l)) (some (String.mk (trimChars r))) =
        String.mk (trimChars l ++ '=' :: '=' :: trimChars r) := by
      rw [← hdata]
    have hcond : ¬(trimChars (trimChars l) = [] ∨ trimChars (trimChars r) = []) := by
      rw [trimChars_idem, trimChars_idem]
      exact fun hcon => hcon.elim hl hr
    rw [hX, parse_with_sep _ _ hsnoc, if_neg hcond, trimChars_idem, trimChars_idem]

theorem parse_roundtrip_amended_witness :
    parse_package_spec (spec_string "numpy" (some "1.21.0")) = .ok ("numpy", some "1.21.0") :=
  parse_roundtrip_amended "numpy==1.21.0" "numpy" (some "1.21.0") (by decide)
    (.inr (by decide))

/-- C6: in the parallel path's per-item install, a supplied version is
returned as-is on success with no `pip show` round-trip (the outcome does not
depend on the `showResult` oracle at all); without a supplied version, if the
one follow-up query fails to spawn, exits non-zero, or yields no
`Version: ` line, the recorded version is the sentinel `"unknown"` and the
outcome is still a success. -/
theorem install_single_version_resolution (env : Env) (pkg name : String) :
    (∀ v o, parse_package_spec pkg = .ok (name, some v) →
      env.install (spec_string name (some v)) = some (true, o) →
      install_single_package env pkg = .ok (name, v) ∧
      ∀ f, install_single_package { env with showResult := f } pkg = .ok (name, v)) ∧
    (∀ o, parse_package_spec pkg = .ok (name, none) →
      env.install name = some (true, o) →
      (match env.showResult name with
       | none => True
       | some (ok, lines) => ok = false ∨ ∀ l ∈ lines, startsWithVersion l.data = false) →
      install_single_package env pkg = .ok (name, "unknown")) := by
  constructor
  · intro v o hp hinst
    refine ⟨by simp [install_single_package, hp, hinst], fun f => ?_⟩
    simp [install_single_package, hp, hinst]
  · intro o hp hinst hquery
    cases hs : env.showResult name with
    | none =>
      simp [install_single_package, hp, spec_string, hinst, get_installed_version, hs]
    | some pr =>
      obtain ⟨ok, lines⟩ := pr
      rw [hs] at hquery
      cases ok with
      | false =>
        simp [install_single_package, hp, spec_string, hinst, get_installed_version, hs]
      | true =>
        have hall : ∀ l ∈ lines, startsWithVersion l.data = false := by
          rcases hquery with h | h
          · cases h
          · exact h
        have hfind : lines.find? (fun line => startsWithVersion line.data) = none := by
          rw [List.find?_eq_none]
          intro x hx
          simp [hall x hx]
        simp [install_single_package, hp, spec_string, hinst, get_installed_version, hs, hfind]

def envShow : Env where
  python := some "py"
  install := fun _ => some (true, "")
  installBatch := fun _ => some (true, "")
  showResult := fun _ => some (true, ["nope"])
  uninstall := fun _ => some (true, "")

theorem install_single_version_resolution_witness :
    install_single_package envShow "numpy==1.21.0" = .ok ("numpy", "1.21.0") ∧
    install_single_package envShow "requests" = .ok ("requests", "unknown") := by
  constructor
  · exact ((install_single_version_resolution envShow "numpy==1.21.0" "numpy").1
      "1.21.0" "" (by decide) rfl).1
  · exact (install_single_version_resolution envShow "requests" "requests").2
      "" (by decide) rfl (Or.inr (by decide))

/-! ## Requirements-file parsing -/

/-- The filter stated by the spec sentence, reading "whitespace" literally:
keep trimmed lines that are non-empty, do not start with `#`, and do not both
contain a whitespace character and lack `==`. -/
def requirements_filter_ws (rawLine : String) : Option String :=
  let ld := trimChars rawLine.data
  if ld.isEmpty || ld.head? == some '#' then none
  else if ld.any Char.isWhitespace && !(hasSep ld) then none
  else some (String.mk ld)

/-- The filter the code implements: as above but testing only the space
character `' '` (lib.rs:742 checks `line.contains(' ')`). -/
def requirements_filter_space (rawLine : String) : Option String :=
  let ld := trimChars rawLine.data
  if ld.isEmpty || ld.head? == some '#' then none
  else if ld.contains ' ' && !(hasSep ld) then none
  else some (String.mk ld)

/-- C9 counterexample: a line with an interior tab and no `==` contains
whitespace, so the claim says it is skipped, but the code only tests for the
space character and keeps it. -/
theorem requirements_whitespace_cex :
    parse_requirements_file ["a\tb"] = ["a\tb"] ∧
    ["a\tb"].filterMap requirements_filter_ws = [] :=
  ⟨by decide, by decide⟩

/-- C9 (amended): `parse_requirements_file` returns, in file order, exactly
the trimmed lines that are non-empty, do not start with `#`, and do not both
contain a space character `' '` and lack the `==` separator (such lines are
skipped with a warning, not fatal). -/
theorem parse_requirements_characterization (lines : List String) :
    parse_requirements_file lines = lines.filterMap requirements_filter_space := by
  induction lines with
  | nil => rfl
  | cons l rest ih =>
    by_cases h1 : ((trimChars l.data).isEmpty || (trimChars l.data).head? == some '#') = true
    · simp [parse_requirements_file, requirements_filter_space, List.filterMap_cons, h1, ih]
    · by_cases h2 : ((trimChars l.data).contains ' ' && !(hasSep (trimChars l.data))) = true
      · simp [parse_requirements_file, requirements_filter_space, List.filterMap_cons, h1,
          h2, ih]
        by_cases hc : ' ' ∈ trimChars l.data ∧ hasSep (trimChars l.data) = false <;>
          simp [hc]
      · simp [parse_requirements_file, requirements_filter_space, List.filterMap_cons, h1,
          h2, ih]
        by_cases hc : ' ' ∈ trimChars l.data ∧ hasSep (trimChars l.data) = false <;>
          simp [hc]

/-! ## Malformed specs: sequential vs parallel policy -/

theorem parse_err_shape (t : String) (e : PackageError)
    (h : parse_package_spec t = .error e) : ∃ msg, e = .InvalidPackageSpec msg := by
  by_cases hemp : trimChars t.data = []
  · rw [parse_empty_input t hemp] at h
    exact ⟨_, (Except.error.inj h).symm⟩
  · cases hs : splitEqEq (trimChars t.data) with
    | none =>
      have hsep := (splitEqEq_eq_none_iff _).mp hs
      rw [parse_no_sep t hemp hsep] at h
      simp at h
    | some pr =>
      obtain ⟨l, r⟩ := pr
      have hd := splitEqEq_some _ l r hs
      rw [parse_trim_first t, hd.1, parse_with_sep l r hd.2] at h
      by_cases h1 : trimChars l = [] ∨ trimChars r = []
      · rw [if_pos h1] at h
        exact ⟨_, (Except.error.inj h).symm⟩
      · rw [if_neg h1] at h
        simp at h

theorem prepare_err_of_mem (pkgs : List String) (p : String) (e : PackageError)
    (hmem : p ∈ pkgs) (hbad : parse_package_spec p = .error e) :
    ∃ msg, prepare_package_specs pkgs = .error (.InvalidPackageSpec msg) := by
  induction pkgs with
  | nil => cases hmem
  | cons q rest ih =>
    cases hq : parse_package_spec q with
    | error e2 =>
      obtain ⟨msg, hmsg⟩ := parse_err_shape q e2 hq
      exact ⟨msg, by simp [prepare_package_specs, hq, hmsg]⟩
    | ok nv =>
      obtain ⟨n, vo⟩ := nv
      have hp : p ∈ rest := by
        rcases List.mem_cons.mp hmem with rfl | hr
        · rw [hq] at hbad; cases hbad
        · exact hr
      obtain ⟨msg, hmsg⟩ := ih hp
      exact ⟨msg, by simp [prepare_package_specs, hq, hmsg]⟩

/-- C5: one malformed spec in the batch.  Sequentially, the parse error is
fatal before any install: the call returns an `InvalidPackageSpec` error, the
registry is untouched, and the result does not depend on the batch-install
oracle at all.  In parallel, the same malformed spec is exactly one failed
item: its outcome is the parse error, and when every sibling succeeds the
batch reports precisely one failure while still committing the siblings'
results to the registry fold. -/
theorem malformed_spec_policy (env : Env) (packages : List String)
    (reg : PackageRegistry) (py : String) (hpy : env.python = some py)
    (p : String) (e : PackageError) (hmem : p ∈ packages)
    (hbad : parse_package_spec p = .error e) :
    (∃ msg, install_packages env packages reg = (reg, some (.InvalidPackageSpec msg))) ∧
    (∀ f, install_packages { env with installBatch := f } packages reg =
      install_packages env packages reg) ∧
    install_single_package env p = .error e ∧
    (packages.count p = 1 →
      (∀ q ∈ packages, q ≠ p → isErrB (install_single_package env q) = false) →
      install_packages_parallel env packages reg =
        ((packages.map (fun pkg => install_single_package env pkg)).foldl apply_outcome reg,
          some (.InstallationFailed "1 packages failed to install"))) := by
  have hne : packages ≠ [] := List.ne_nil_of_mem hmem
  obtain ⟨a, l, rfl⟩ : ∃ a l, packages = a :: l := by
    cases packages with
    | nil => cases hmem
    | cons a l => exact ⟨a, l, rfl⟩
  obtain ⟨msg, hprep⟩ := prepare_err_of_mem (a :: l) p e hmem hbad
  refine ⟨⟨msg, ?_⟩, ?_, ?_, ?_⟩
  · simp [install_packages, hpy, hprep]
  · intro f
    simp [install_packages, hpy, hprep]
  · simp [install_single_package, hbad]
  · intro hcount hothers
    have hpe : isErrB (install_single_package env p) = true := by
      simp [install_single_package, hbad, isErrB]
    have hcnt : countFailures ((a :: l).map (fun pkg => install_single_package env pkg)) = 1 := by
      unfold countFailures
      rw [List.countP_map]
      have hcong : (a :: l).countP (fun q => isErrB (install_single_package env q)) =
          (a :: l).countP (fun q => q == p) := by
        apply List.countP_congr
        intro x hx
        by_cases hxp : x = p
        · subst hxp
          simp [hpe]
        · simp [hothers x hx hxp, hxp]
      have : ((fun r => isErrB r) ∘ fun pkg => install_single_package env pkg) =
          (fun q => isErrB (install_single_package env q)) := rfl
      rw [this, hcong, ← List.count_eq_countP, hcount]
    rw [install_packages_parallel_eq env (a :: l) reg py hpy hne]
    unfold process_installation_results
    rw [hcnt]
    have hmsg1 : (toString (1 : Nat) ++ " packages failed to install") =
        "1 packages failed to install" := by decide
    simp [hmsg1]

def envC5 : Env where
  python := some "py"
  install := fun _ => some (true, "")
  installBatch := fun _ => some (false, "batch stderr")
  showResult := fun _ => some (true, ["Version: 2.0"])
  uninstall := fun _ => some (true, "")

theorem malformed_spec_policy_witness :
    install_single_package envC5 "==1.0.0" =
      .error (.InvalidPackageSpec "Invalid package specification: ==1.0.0") ∧
    install_packages_parallel envC5 ["a", "==1.0.0"] ⟨[]⟩ =
      (⟨[Package.mk "a" "2.0"]⟩, some (.InstallationFailed "1 packages failed to install")) := by
  have h := malformed_spec_policy envC5 ["a", "==1.0.0"] ⟨[]⟩ "py" rfl "==1.0.0"
    (.InvalidPackageSpec "Invalid package specification: ==1.0.0") (by decide) (by decide)
  refine ⟨h.2.2.1, ?_⟩
  exact (h.2.2.2 (by decide) (by decide)).trans (by decide)

/-! ## Sequential vs parallel equivalence -/

/-- The version the code records after a successful install of `n` when no
version was supplied: what `get_installed_version` reports, or `"unknown"`
when even the query's spawn failed. -/
def shownVersion (env : Env) (n : String) : String :=
  match get_installed_version env n with
  | .ok v => v
  | .error _ => "unknown"

/-- The registry entry an all-successful run records for raw spec `p`. -/
def resolvedPackage (env : Env) (p : String) : Package :=
  match parse_package_spec p with
  | .ok (n, some v) => Package.mk n v
  | .ok (n, none) => Package.mk n (shownVersion env n)
  | .error _ => Package.mk "" ""

theorem get_installed_version_ok (env : Env) (n : String) (h : env.showResult n ≠ none) :
    get_installed_version env n = .ok (shownVersion env n) := by
  cases hsr : env.showResult n with
  | none => exact absurd hsr h
  | some pr =>
    obtain ⟨ok, lines⟩ := pr
    cases ok with
    | false => simp [get_installed_version, shownVersion, hsr]
    | true =>
      cases hf : lines.find? (fun line => startsWithVersion line.data) with
      | none => simp [get_installed_version, shownVersion, hsr, hf]
      | some line => simp [get_installed_version, shownVersion, hsr, hf]

theorem install_single_ok (env : Env) (p n : String) (vo : Option String) (o : String)
    (hp : parse_package_spec p = .ok (n, vo))
    (hi : env.install (spec_string n vo) = some (true, o)) :
    install_single_package env p =
      .ok ((resolvedPackage env p).name, (resolvedPackage env p).version) := by
  cases vo with
  | some v => simp [install_single_package, hp, hi, resolvedPackage]
  | none => simp [install_single_package, hp, hi, resolvedPackage, shownVersion]

theorem update_registry_loop_ok (env : Env) (pkgs : List String)
    (hshow : ∀ n, env.showResult n ≠ none) :
    ∀ reg, (∀ p ∈ pkgs, ∃ n vo, parse_package_spec p = .ok (n, vo)) →
      update_registry_loop env pkgs reg =
        ((pkgs.map (resolvedPackage env)).foldl add_package reg, none) := by
  induction pkgs with
  | nil => intro reg _; rfl
  | cons p rest ih =>
    intro reg hparse
    obtain ⟨n, vo, hp⟩ := hparse p (by simp)
    have hrest : ∀ p ∈ rest, ∃ n vo, parse_package_spec p = .ok (n, vo) :=
      fun q hq => hparse q (List.mem_cons_of_mem _ hq)
    cases vo with
    | some v =>
      simp [update_registry_loop, hp, resolvedPackage,
        ih (add_package reg (Package.mk n v)) hrest]
    | none =>
      have hgv := get_installed_version_ok env n (hshow n)
      simp [update_registry_loop, hp, hgv, resolvedPackage,
        ih (add_package reg (Package.mk n (shownVersion env n))) hrest]

theorem foldl_apply_map_ok (env : Env) (pkgs : List String)
    (hok : ∀ p ∈ pkgs, install_single_package env p =
      .ok ((resolvedPackage env p).name, (resolvedPackage env p).version)) :
    ∀ reg, (pkgs.map (fun pkg => install_single_package env pkg)).foldl apply_outcome reg =
      (pkgs.map (resolvedPackage env)).foldl add_package reg := by
  induction pkgs with
  | nil => intro reg; rfl
  | cons p rest ih =>
    intro reg
    simp only [List.map_cons, List.foldl_cons]
    rw [hok p (by simp)]
    exact ih (fun q hq => hok q (List.mem_cons_of_mem _ hq)) _

theorem process_map_ok (env : Env) (pkgs : List String) (reg : PackageRegistry)
    (hitems : ∀ p ∈ pkgs, ∃ n vo o, parse_package_spec p = .ok (n, vo) ∧
      env.install (spec_string n vo) = some (true, o)) :
    process_installation_results (pkgs.map (fun pkg => install_single_package env pkg)) reg =
      ((pkgs.map (resolvedPackage env)).foldl add_package reg, none) := by
  have hok : ∀ p ∈ pkgs, install_single_package env p =
      .ok ((resolvedPackage env p).name, (resolvedPackage env p).version) := by
    intro p hp
    obtain ⟨n, vo, o, h1, h2⟩ := hitems p hp
    exact install_single_ok env p n vo o h1 h2
  have hcnt : countFailures (pkgs.map (fun pkg => install_single_package env pkg)) = 0 := by
    unfold countFailures
    rw [List.countP_map, List.countP_eq_zero]
    intro p hp
    simp [Function.comp, hok p hp, isErrB]
  unfold process_installation_results
  rw [hcnt]
  simp only [Nat.lt_irrefl, if_false]
  rw [foldl_apply_map_ok env pkgs hok reg]

theorem prepare_ok_of_parse (pkgs : List String)
    (hparse : ∀ p ∈ pkgs, ∃ n vo, parse_package_spec p = .ok (n, vo)) :
    ∃ specs, prepare_package_specs pkgs = .ok specs := by
  induction pkgs with
  | nil => exact ⟨[], rfl⟩
  | cons p rest ih =>
    obtain ⟨n, vo, hp⟩ := hparse p (by simp)
    obtain ⟨specs, hs⟩ := ih (fun q hq => hparse q (List.mem_cons_of_mem _ hq))
    exact ⟨spec_string n vo :: specs, by simp [prepare_package_specs, hp, hs]⟩

theorem install_packages_ok (env : Env) (packages : List String) (reg : PackageRegistry)
    (py : String) (hpy : env.python = some py)
    (hparse : ∀ p ∈ packages, ∃ n vo, parse_package_spec p = .ok (n, vo))
    (hbatch : ∀ specs, prepare_package_specs packages = .ok specs →
      ∃ o, env.installBatch specs = some (true, o))
    (hshow : ∀ n, env.showResult n ≠ none) :
    install_packages env packages reg =
      ((packages.map (resolvedPackage env)).foldl add_package reg, none) := by
  cases hp : packages with
  | nil => rfl
  | cons a l =>
    rw [← hp]
    obtain ⟨specs, hspecs⟩ := prepare_ok_of_parse packages hparse
    obtain ⟨o, hb⟩ := hbatch specs hspecs
    have hloop := update_registry_loop_ok env packages hshow reg hparse
    have hne : packages.isEmpty = false := by rw [hp]; rfl
    simp [install_packages, hne, hpy, hspecs, hb, hloop]

theorem install_packages_parallel_ok (env : Env) (packages : List String)
    (reg : PackageRegistry) (py : String) (hpy : env.python = some py)
    (hitems : ∀ p ∈ packages, ∃ n vo o, parse_package_spec p = .ok (n, vo) ∧
      env.install (spec_string n vo) = some (true, o)) :
    install_packages_parallel env packages reg =
      ((packages.map (resolvedPackage env)).foldl add_package reg, none) := by
  cases hp : packages with
  | nil => rfl
  | cons a l =>
    rw [← hp]
    rw [install_packages_parallel_eq env packages reg py hpy (by rw [hp]; simp)]
    exact process_map_ok env packages reg hitems

def envC3 : Env where
  python := some "py"
  install := fun s => if s == "a" then some (true, "") else some (false, "item stderr")
  installBatch := fun _ => some (false, "boom")
  showResult := fun _ => some (true, ["Version: 1.0"])
  uninstall := fun _ => some (true, "")

/-- C3 counterexample: with spec `"b"` failing, the sequential path's single
batch command fails wholesale — registry untouched, error is the captured
stderr — while the parallel path commits `a`'s success and reports a count.
The two modes' final registries differ, refuting the claimed equivalence for
batches with failures. -/
theorem seq_parallel_divergence :
    install_packages envC3 ["a", "b"] ⟨[]⟩ = (⟨[]⟩, some (.InstallationFailed "boom")) ∧
    install_packages_parallel envC3 ["a", "b"] ⟨[]⟩ =
      (⟨[Package.mk "a" "1.0"]⟩, some (.InstallationFailed "1 packages failed to install")) ∧
    (install_packages envC3 ["a", "b"] ⟨[]⟩).1 ≠
      (install_packages_parallel envC3 ["a", "b"] ⟨[]⟩).1 :=
  ⟨by decide, by decide, by decide⟩

/-- C3 (amended): when every spec parses, the batch command and every
per-item command succeed, and no version query fails to spawn, the sequential
and parallel modes produce identical results: the same final registry (each
spec's resolved package folded in, in input order) and no error.  With any
failing item the modes diverge (see the counterexample): the sequential path
aborts wholesale with the batch stderr and commits nothing, while the
parallel path commits the successes and reports the failure count; neither
mode produces a per-item `(name, reason)` failure list. -/
theorem seq_parallel_equiv_on_success (env : Env) (packages : List String)
    (reg : PackageRegistry) (py : String) (hpy : env.python = some py)
    (hitems : ∀ p ∈ packages, ∃ n vo o, parse_package_spec p = .ok (n, vo) ∧
      env.install (spec_string n vo) = some (true, o))
    (hbatch : ∀ specs, prepare_package_specs packages = .ok specs →
      ∃ o, env.installBatch specs = some (true, o))
    (hshow : ∀ n, env.showResult n ≠ none) :
    install_packages env packages reg = install_packages_parallel env packages reg ∧
    (install_packages env packages reg).2 = none := by
  have hparse : ∀ p ∈ packages, ∃ n vo, parse_package_spec p = .ok (n, vo) := by
    intro p hp
    obtain ⟨n, vo, o, h1, _⟩ := hitems p hp
    exact ⟨n, vo, h1⟩
  have hseq := install_packages_ok env packages reg py hpy hparse hbatch hshow
  have hpar := install_packages_parallel_ok env packages reg py hpy hitems
  rw [hseq, hpar]
  exact ⟨rfl, rfl⟩

def envOkAll : Env where
  python := some "py"
  install := fun _ => some (true, "")
  installBatch := fun _ => some (true, "")
  showResult := fun _ => some (true, ["Version: 2.0"])
  uninstall := fun _ => some (true, "")

theorem seq_parallel_equiv_witness :
    install_packages envOkAll ["a==1.0", "b"] ⟨[]⟩ =
      install_packages_parallel envOkAll ["a==1.0", "b"] ⟨[]⟩ := by
  have h := seq_parallel_equiv_on_success envOkAll ["a==1.0", "b"] ⟨[]⟩ "py" rfl
    (by
      intro p hp
      rcases List.mem_cons.mp hp with rfl | hp2
      · exact ⟨"a", some "1.0", "", by decide, rfl⟩
      · rcases List.mem_cons.mp hp2 with rfl | hp3
        · exact ⟨"b", none, "", by decide, rfl⟩
        · cases hp3)
    (fun specs _ => ⟨"", rfl⟩)
    (fun n => by simp [envOkAll])
  exact h.1

